import Mathlib

/-!
Verification of the Feishu wiki scraper (scripts/feishu-wiki-scraper.py).

The script's pure algorithmic parts are embedded shallowly as Lean
functions over `List Char` (Python/JS strings).  Browser-supplied data
(document title, DOM element properties, poll observations, per-link
navigation outcomes) are inputs to the embedded functions, mirroring how
the script only reads them through the automation driver.
-/

namespace Feishu

/-- Convert a Lean string literal to the character-list representation used
throughout the embedding. -/
def s2l (s : String) : List Char := s.data

/-- Whitespace recognised by Python `str.strip` / regex `\s` and JS
`String.trim`, restricted to the ASCII whitespace characters (the Unicode
extensions play no role in any claim). -/
def isPySpace (c : Char) : Bool :=
  c = ' ' || c = '\t' || c = '\n' || c = '\r' || c = '\x0b' || c = '\x0c'

/-- Word characters of Python's Unicode-aware regex class `\w`
(`re.sub` on `str` defaults to Unicode matching): ASCII alphanumerics,
the underscore, and - standing in for the full Unicode word-character
set - the CJK unified ideographs, which Python's `\w` matches
(e.g. `re.sub` with a str pattern keeps Chinese characters). -/
def isPyWord (c : Char) : Bool :=
  c.isAlphanum || c = '_' || (0x4E00 ≤ c.toNat && c.toNat ≤ 0x9FFF)

/-- Drop trailing whitespace (helper for `pyStrip`). -/
def stripEnd (l : List Char) : List Char :=
  (l.reverse.dropWhile isPySpace).reverse

/-- Python `str.strip()` / JS `String.trim()`: drop leading and trailing
whitespace. -/
def pyStrip (l : List Char) : List Char :=
  stripEnd (l.dropWhile isPySpace)

/-- Accumulator pass for `collapseWs`: `pend` records that a (maximal) run
of whitespace is pending and must be emitted as a single hyphen, exactly
as `re.sub` replaces each maximal match of the pattern. -/
def cwAux : Bool → List Char → List Char
  | pend, [] => if pend then ['-'] else []
  | pend, c :: cs =>
    if isPySpace c then cwAux true cs
    else if pend then '-' :: c :: cwAux false cs
    else c :: cwAux false cs

/-- Python `re.sub` with a whitespace-run pattern replaced by a hyphen, as in
`slugify`: each maximal run of whitespace becomes one hyphen. -/
def collapseWs (l : List Char) : List Char := cwAux false l

/-- First substitution of `slugify`: remove every character that is not a
word character, whitespace, or a hyphen (after stripping). -/
def slugFiltered (l : List Char) : List Char :=
  (pyStrip l).filter (fun c => isPyWord c || isPySpace c || c = '-')

/-- Embedding of `slugify` (feishu-wiki-scraper.py lines 25-29): strip, drop
characters outside word/whitespace/hyphen, collapse whitespace runs to a
hyphen, truncate to 120, fall back to a placeholder when empty. -/
def slugify (l : List Char) : List Char :=
  if (collapseWs (slugFiltered l)).take 120 = [] then s2l "untitled"
  else (collapseWs (slugFiltered l)).take 120

/-- ASCII slug characters named by the original C4 claim. -/
def isAsciiSlugChar (c : Char) : Bool :=
  ('A' ≤ c && c ≤ 'Z') || ('a' ≤ c && c ≤ 'z') || ('0' ≤ c && c ≤ '9') ||
    c = '_' || c = '-'

/-- Length of a newline run after the blank-line substitution: the regex
matches runs of 3 or more newlines and replaces each with exactly two;
shorter runs are left alone. -/
def collapsedRun (k : Nat) : Nat := if 3 ≤ k then 2 else k

/-- Emit a pending newline run (collapsed) in front of a tail. -/
def emitNl (k : Nat) (t : List Char) : List Char :=
  List.replicate (collapsedRun k) '\n' ++ t

/-- Scanner for the blank-line substitution: `k` counts the newline run
currently being read; each maximal run is emitted collapsed. -/
def nlAux : Nat → List Char → List Char
  | k, [] => emitNl k []
  | k, c :: cs => if c = '\n' then nlAux (k + 1) cs else emitNl k (c :: nlAux 0 cs)

/-- Embedding of the markdown clean-up `re.sub` replacing each run of 3+
newlines by two newlines (feishu-wiki-scraper.py line 168). -/
def collapseBlankLines (l : List Char) : List Char := nlAux 0 l

/-- Element data the page-context scripts read from the browser: tag name,
class attribute, other attributes, rendered `innerText`, and `innerHTML`.
The text and HTML are browser-computed properties, so the embedding carries
them as element data rather than recomputing layout. -/
structure ElemRec where
  tag : List Char
  className : List Char
  attrs : List (List Char × List Char)
  innerText : List Char
  innerHTML : List Char
deriving DecidableEq

/-- A rendered document, as the preorder (document-order) sequence of its
elements; `document.querySelector` returns the first element of this
sequence matching the selector. -/
abbrev Dom := List ElemRec

/-- Check that the second list starts with the first (helper for the JS
`String.includes` substring test). -/
def leadsWith : List Char → List Char → Bool
  | [], _ => true
  | _ :: _, [] => false
  | p :: ps, c :: cs => p == c && leadsWith ps cs

/-- JS `hay.includes(pat)`: `pat` occurs as a contiguous substring. -/
def containsStr (hay pat : List Char) : Bool :=
  match hay with
  | [] => leadsWith pat []
  | _ :: t => leadsWith pat hay || containsStr t pat

/-- The selector forms the scraper's page scripts use: a tag name, attribute
presence, an exact attribute value, or a class-attribute substring
(the CSS forms `tag`, `[attr]`, `[attr="v"]`, `[class*="s"]`). -/
inductive Sel where
  | tagIs (t : List Char)
  | attrHas (a : List Char)
  | attrIs (a v : List Char)
  | classHas (s : List Char)
deriving DecidableEq

/-- Selector matching against one element. -/
def selMatches : Sel → ElemRec → Bool
  | Sel.tagIs t, e => e.tag == t
  | Sel.attrHas a, e => e.attrs.any (fun p => p.1 == a)
  | Sel.attrIs a v, e => e.attrs.any (fun p => p.1 == a && p.2 == v)
  | Sel.classHas s, e => containsStr e.className s

/-- Embedding of `document.querySelector`: first match in document order. -/
def qsel (d : Dom) (s : Sel) : Option ElemRec := d.find? (selMatches s)

/-- First successful result of `f` along a list (the shape of the JS loops
`for (const sel of selectors) { ... return ...; }`). -/
def firstSome {α β : Type} (f : α → Option β) : List α → Option β
  | [] => none
  | a :: as =>
    match f a with
    | some b => some b
    | none => firstSome f as

/-- Heading selectors tried by `extract_page_content` for a cleaner title
(feishu-wiki-scraper.py line 89). -/
def headingSelectors : List Sel :=
  [Sel.tagIs (s2l "h1"), Sel.attrHas (s2l "data-page-title"),
   Sel.classHas (s2l "title")]

/-- One step of the heading script: query the selector and accept the first
match whose trimmed text is non-empty and under 200 characters. -/
def headSel (d : Dom) (s : Sel) : Option (List Char) :=
  match qsel d s with
  | some el =>
    if 0 < (pyStrip el.innerText).length ∧ (pyStrip el.innerText).length < 200
    then some (pyStrip el.innerText) else none
  | none => none

/-- The heading-evaluation script: first selector that yields a valid text,
else the empty string. -/
def headingEval (d : Dom) : List Char :=
  (firstSome (headSel d) headingSelectors).getD []

/-- Title resolution in `extract_page_content`: start from the document
title and replace it by the heading text when the latter is non-empty
(Python truthiness of the returned string). -/
def resolveTitle (docTitle : List Char) (d : Dom) : List Char :=
  if headingEval d = [] then docTitle else headingEval d

/-- File body written by the crawl driver: the f-string
`# {title}` followed by a blank line and the content. -/
def fileContent (title body : List Char) : List Char :=
  '#' :: ' ' :: (title ++ '\n' :: '\n' :: body)

/-- An element that the heading script would accept: it matches one of the
three heading selectors and its trimmed text is non-empty and short. -/
def validHeading (e : ElemRec) : Bool :=
  (selMatches (Sel.tagIs (s2l "h1")) e ||
    selMatches (Sel.attrHas (s2l "data-page-title")) e ||
    selMatches (Sel.classHas (s2l "title")) e) &&
  (0 < (pyStrip e.innerText).length && (pyStrip e.innerText).length < 200)

/-- Concrete heading-free page used to instantiate C1. -/
def c1page : Dom :=
  [⟨s2l "p", s2l "", [], s2l "hello", s2l "hello"⟩]

/-- Priority list of known content selectors tried by the main-content
script (feishu-wiki-scraper.py lines 118-130). -/
def knownSelectors : List Sel :=
  [Sel.attrHas (s2l "data-content-editable-root"),
   Sel.classHas (s2l "docx-content"),
   Sel.classHas (s2l "doc-content"),
   Sel.classHas (s2l "wiki-content"),
   Sel.classHas (s2l "page-content"),
   Sel.classHas (s2l "render"),
   Sel.classHas (s2l "editor"),
   Sel.tagIs (s2l "article"),
   Sel.tagIs (s2l "main"),
   Sel.attrIs (s2l "role") (s2l "main"),
   Sel.attrIs (s2l "role") (s2l "article")]

/-- One step of the known-selector phase: query the selector and accept the
first match whose trimmed text exceeds 50 characters, returning its inner
HTML. -/
def checkSel (d : Dom) (s : Sel) : Option (List Char) :=
  match qsel d s with
  | some el =>
    if 50 < (pyStrip el.innerText).length then some el.innerHTML else none
  | none => none

/-- The known-selector phase of the main-content locator. -/
def phase1 (d : Dom) : Option (List Char) := firstSome (checkSel d) knownSelectors

/-- Result of the main-content locator: either the known-selector phase
returned a fragment, or the fallback DOM walk ran.  The fallback walk
(lines 138-163) is kept abstract: the claims treated here concern only
whether it is reached. -/
inductive LocateResult where
  | known (html : List Char)
  | fallback
deriving DecidableEq

/-- Embedding of the main-content locator dispatch: the fallback walk runs
exactly when every known selector fails the 50-character test. -/
def locate_content (d : Dom) : LocateResult :=
  match phase1 d with
  | some h => LocateResult.known h
  | none => LocateResult.fallback

/-- Concrete single-element page whose main element holds long text, used to
instantiate C3. -/
def c3mainElem : ElemRec :=
  ⟨s2l "main", s2l "", [],
   s2l "This main element body holds well over fifty characters of text.",
   s2l "<p>inner</p>"⟩

/-- Concrete document for the C3 witness. -/
def c3goodPage : Dom := [c3mainElem]

/-- Concrete page refuting C3 as stated: the first main element has only
whitespace text, a second main element has long text. -/
def c3badPage : Dom :=
  [⟨s2l "main", s2l "", [], s2l "   ", s2l ""⟩,
   ⟨s2l "main", s2l "", [],
    s2l "This second main element holds well over fifty characters of text.",
    s2l "<p>content</p>"⟩]

/-- Poll loop of `wait_for_content` (feishu-wiki-scraper.py lines 36-48):
the input list holds the body-text lengths observed at the 0.5s polls that
fit before the deadline; `prev` and `sc` are `prev_len` and `stable_count`.
Returns whether three consecutive stable polls above the 100-character
threshold were seen (early return) - when the observations run out, the
deadline has elapsed and the loop falls through. -/
def pollLoop : List Nat → Nat → Nat → Bool
  | [], _, _ => false
  | cur :: rest, prev, sc =>
    if 100 < cur ∧ cur = prev then
      (if 3 ≤ sc + 1 then true else pollLoop rest cur (sc + 1))
    else pollLoop rest cur 0

/-- Embedding of `wait_for_content`: the initial
`wait_for_load_state("networkidle", timeout=30000)` call is NOT wrapped in
a try block, so a driver timeout there propagates to the caller; otherwise
the poll loop runs to stabilization or deadline and returns normally. -/
def wait_for_content (idle : Except (List Char) Unit) (polls : List Nat) :
    Except (List Char) Bool :=
  match idle with
  | Except.error e => Except.error e
  | Except.ok _ => Except.ok (pollLoop polls 0 0)

/-- Pass loop of `expand_sidebar_tree` (feishu-wiki-scraper.py lines
202-234): each pass runs the page script - abstracted as a state transition
returning the number of toggles clicked - and the loop stops on a
zero-activation pass or after the pass budget (15) is spent.  The returned
list is the per-pass activation trace, including the terminal zero pass
when one occurs. -/
def expandLoop {σ : Type} (step : σ → Nat × σ) : Nat → σ → List Nat
  | 0, _ => []
  | n + 1, st =>
    if (step st).1 = 0 then [(step st).1]
    else (step st).1 :: expandLoop step n (step st).2

/-- Embedding of `expand_sidebar_tree`: at most 15 passes. -/
def expand_sidebar_tree {σ : Type} (step : σ → Nat × σ) (st : σ) : List Nat :=
  expandLoop step 15 st

/-- The DOM of the C9 scenario: three nested collapsed toggles, each pass
revealing (after the render settles) exactly the next one; the state counts
toggles already activated. -/
def nestedToggles (n : Nat) : Nat × Nat :=
  if n < 3 then (1, n + 1) else (0, n)

/-- Python `url.rstrip(slash)`: drop all trailing slashes. -/
def rstripSlash (l : List Char) : List Char :=
  (l.reverse.dropWhile (fun c => c == '/')).reverse

/-- Python `split(slash)[-1]`: the segment after the last slash. -/
def lastSeg (l : List Char) : List Char :=
  (l.reverse.takeWhile (fun c => c != '/')).reverse

/-- The start page's path segment identifier, as computed by `main`
(feishu-wiki-scraper.py line 293). -/
def startId (url : List Char) : List Char := lastSeg (rstripSlash url)

/-- A discovered link: normalized URL plus the anchor's visible text. -/
structure LinkRecord where
  url : List Char
  title : List Char
deriving DecidableEq

/-- Self-exclusion filter of the crawl driver (line 294): keep links whose
URL does not CONTAIN the start page's identifier as a substring. -/
def excludeStart (startUrl : List Char) (links : List LinkRecord) : List LinkRecord :=
  links.filter (fun l => ! containsStr l.url (startId startUrl))

/-- Start URL of the C7 counterexample (already in normalized form). -/
def c7start : List Char := s2l "https://h.example/wiki/abc"

/-- A discovered link distinct from the start URL but containing its
identifier as a prefix of its own identifier. -/
def c7link : LinkRecord := ⟨s2l "https://h.example/wiki/abcd", s2l "T"⟩

/-- Decimal representation of a natural number as Python `str` renders it
(most significant digit first, `0` for zero). -/
def decRepr (n : Nat) : List Char :=
  if n = 0 then ['0'] else ((Nat.digits 10 n).map Nat.digitChar).reverse

/-- Python format `{:02d}`: pad the decimal representation to at least two
characters with a leading zero. -/
def pad2 (n : Nat) : List Char :=
  if n < 10 then '0' :: decRepr n else decRepr n

/-- Output filename generated by the crawl driver for page index `i` with
the given slug: the f-string `{i:02d}-{slug}.md`. -/
def filename (i : Nat) (slug : List Char) : List Char :=
  pad2 i ++ '-' :: (slug ++ s2l ".md")

/-- Result of extracting one visited page (title and converted body). -/
structure PageData where
  title : List Char
  content : List Char
deriving DecidableEq

/-- Per-link visit loop of the crawl driver (feishu-wiki-scraper.py lines
298-310), starting at index `i`: the combined effect of `page.goto` plus
`extract_page_content` for a given index and link is supplied by `outcome`
(the driver only observes either a page or a raised error).  Successes
yield the written file's index and name; failures are logged with their
index and the loop continues. -/
def visitStep (outcome : Nat → LinkRecord → Except (List Char) PageData) :
    Nat → List LinkRecord → List (Nat × List Char) × List (Nat × List Char)
  | _, [] => ([], [])
  | i, l :: ls =>
    match outcome i l with
    | Except.ok pd =>
      ((i, filename i (slugify pd.title)) :: (visitStep outcome (i + 1) ls).1,
        (visitStep outcome (i + 1) ls).2)
    | Except.error e =>
      ((visitStep outcome (i + 1) ls).1, (i, e) :: (visitStep outcome (i + 1) ls).2)

/-- The driver's full link walk: `enumerate(links, 1)` starts at index 1. -/
def visitAll (outcome : Nat → LinkRecord → Except (List Char) PageData)
    (links : List LinkRecord) : List (Nat × List Char) × List (Nat × List Char) :=
  visitStep outcome 1 links

/-- Behaviour of the C6 witness run: the first link's navigation times out,
the second link succeeds. -/
def c6outcome : Nat → LinkRecord → Except (List Char) PageData :=
  fun i _ =>
    if i = 1 then Except.error (s2l "TimeoutError: nav")
    else Except.ok ⟨s2l "Page", s2l "body"⟩

/-- Links of the C6 witness run. -/
def c6links : List LinkRecord :=
  [⟨s2l "https://h.example/wiki/a", s2l "A"⟩,
   ⟨s2l "https://h.example/wiki/b", s2l "B"⟩]

/-- A parsed URL as the JS `URL` object exposes it to the discovery script:
`query` and `frag` carry the part after `?` and `#` respectively (empty =
absent). -/
structure UrlRec where
  scheme : List Char
  host : List Char
  path : List Char
  query : List Char
  frag : List Char
deriving DecidableEq

/-- JS `url.origin`. -/
def origin (u : UrlRec) : List Char := u.scheme ++ s2l "://" ++ u.host

/-- The normalized URL string the script computes: `url.origin +
url.pathname` (query and fragment discarded). -/
def cleanUrl (u : UrlRec) : List Char := origin u ++ u.path

/-- The full serialized URL, i.e. the JS `a.href` string the script reads
and stores raw in its seen-set check. -/
def hrefStr (u : UrlRec) : List Char :=
  cleanUrl u ++ (if u.query = [] then [] else '?' :: u.query) ++
    (if u.frag = [] then [] else '#' :: u.frag)

/-- Link-URL normalization at the URL level: keep origin and path, discard
query string and fragment. -/
def normalize (u : UrlRec) : UrlRec :=
  { u with query := [], frag := [] }

/-- An anchor as the discovery script sees it: resolved URL and visible
text. -/
structure Anchor where
  url : UrlRec
  text : List Char
deriving DecidableEq

/-- The fixed path marker for wiki pages. -/
def wikiMarker : List Char := s2l "/wiki/"

/-- The host/text filter of the discovery script: same host as the crawl
target, visible trimmed text non-empty and under 200 characters. -/
def passMeta (baseHost : List Char) (a : Anchor) : Bool :=
  a.url.host == baseHost && decide (0 < (pyStrip a.text).length) &&
    decide ((pyStrip a.text).length < 200)

/-- Combined filter: href contains the wiki marker, plus the host/text
checks. -/
def anchorPass (baseHost : List Char) (a : Anchor) : Bool :=
  containsStr (hrefStr a.url) wikiMarker && passMeta baseHost a

/-- Embedding of the page script of `discover_wiki_links`
(feishu-wiki-scraper.py lines 174-195): walk the anchors in DOM order with
a seen-set of strings; the script checks the RAW href against the seen set
first, then host and text, then the normalized (clean) URL, pushing a
record and remembering the clean URL on acceptance. -/
def discoverAux (baseHost : List Char) :
    List Anchor → List (List Char) → List LinkRecord
  | [], _ => []
  | a :: as, seen =>
    if containsStr (hrefStr a.url) wikiMarker && ! seen.contains (hrefStr a.url)
    then
      if passMeta baseHost a then
        if ! seen.contains (cleanUrl a.url) then
          ⟨cleanUrl a.url, pyStrip a.text⟩ ::
            discoverAux baseHost as (cleanUrl a.url :: seen)
        else discoverAux baseHost as seen
      else discoverAux baseHost as seen
    else discoverAux baseHost as seen

/-- Embedding of `discover_wiki_links`: the script starts with an empty
seen set. -/
def discover_wiki_links (baseHost : List Char) (anchors : List Anchor) :
    List LinkRecord :=
  discoverAux baseHost anchors []

/-- Modelled from the spec's words (section 4.4) for the refinement
comparison with `discover_wiki_links`: deduplicate by normalized URL,
keeping the first-seen title and preserving encounter order. -/
def dedupKeepFirst : List LinkRecord → List (List Char) → List LinkRecord
  | [], _ => []
  | r :: rs, seen =>
    if seen.contains r.url then dedupKeepFirst rs seen
    else r :: dedupKeepFirst rs (r.url :: seen)

/-- Modelled from the spec's words (section 4.4): filter the anchors to
same-host wiki links with valid text, normalize each to origin + path,
and deduplicate keeping the first-seen title in encounter order. -/
def specDiscover (baseHost : List Char) (anchors : List Anchor) :
    List LinkRecord :=
  dedupKeepFirst
    ((anchors.filter (anchorPass baseHost)).map
      (fun a => ⟨cleanUrl a.url, pyStrip a.text⟩)) []

/-- A well-formed parsed URL: its origin-plus-path serialization contains
no query or fragment delimiter (true of any string a URL parser produced,
since parsing stops the path at the first such delimiter). -/
def WfUrl (u : UrlRec) : Prop :=
  '?' ∉ cleanUrl u ∧ '#' ∉ cleanUrl u

instance (u : UrlRec) : Decidable (WfUrl u) := by
  unfold WfUrl
  infer_instance

/-- Base host for the C5 witness. -/
def c5host : List Char := s2l "h.example"

/-- Anchors of the C5 witness: two links to the same wiki page differing
only in query string and fragment, with different titles. -/
def c5anchors : List Anchor :=
  [⟨⟨s2l "https", s2l "h.example", s2l "/wiki/p1", s2l "from=share", s2l ""⟩,
    s2l "First"⟩,
   ⟨⟨s2l "https", s2l "h.example", s2l "/wiki/p1", s2l "x=1", s2l "top"⟩,
    s2l "Second"⟩]

/-- Characters of `cwAux` output: every character is either a hyphen or a
non-whitespace character of the input. -/
theorem cwAux_chars (P : Char → Prop)
    (hh : P '-') :
    ∀ (l : List Char) (pend : Bool), (∀ c ∈ l, ¬ isPySpace c = true → P c) →
      ∀ c ∈ cwAux pend l, P c := by
  intro l
  induction l with
  | nil =>
    intro pend _ c hc
    cases pend
    · simp [cwAux] at hc
    · simp [cwAux] at hc
      subst hc
      exact hh
  | cons a as ih =>
    intro pend hl c hc
    by_cases ha : isPySpace a = true
    · rw [show cwAux pend (a :: as) = cwAux true as from by
        cases pend <;> simp [cwAux, ha]] at hc
      exact ih true (fun x hx => hl x (List.mem_cons_of_mem a hx)) c hc
    · cases pend
      · rw [show cwAux false (a :: as) = a :: cwAux false as from by
          simp [cwAux, ha]] at hc
        rcases List.mem_cons.mp hc with hc | hc
        · subst hc
          exact hl _ (List.mem_cons_self _ _) ha
        · exact ih false (fun x hx => hl x (List.mem_cons_of_mem a hx)) c hc
      · rw [show cwAux true (a :: as) = '-' :: a :: cwAux false as from by
          simp [cwAux, ha]] at hc
        rcases List.mem_cons.mp hc with hc | hc
        · subst hc
          exact hh
        · rcases List.mem_cons.mp hc with hc | hc
          · subst hc
            exact hl _ (List.mem_cons_self _ _) ha
          · exact ih false (fun x hx => hl x (List.mem_cons_of_mem a hx)) c hc

/-- Every character slugify emits is a Python word character or a hyphen. -/
theorem slugify_chars (l : List Char) :
    ∀ c ∈ slugify l, isPyWord c = true ∨ c = '-' := by
  unfold slugify
  split
  · decide
  · intro c hc
    have hc' := List.mem_of_mem_take hc
    have := cwAux_chars (fun c => isPyWord c = true ∨ c = '-') (Or.inr rfl)
      (slugFiltered l) false
      (by
        intro x hx hns
        by_cases hw : isPyWord x = true
        · exact Or.inl hw
        · by_cases hd : x = '-'
          · exact Or.inr hd
          · exfalso
            have hx' := List.of_mem_filter hx
            simp [hw, hd] at hx'
            exact hns hx')
    exact this c hc'

/-- Slugify output length never exceeds 120. -/
theorem slugify_len (l : List Char) : (slugify l).length ≤ 120 := by
  unfold slugify
  split
  · decide
  · simp [List.length_take]

/-- Slugify output is never empty. -/
theorem slugify_ne_nil (l : List Char) : slugify l ≠ [] := by
  unfold slugify
  split
  · decide
  · assumption

/-- C4: slugify is total and deterministic (it is a Lean function), its
output has length at most 120, it is non-empty (with the fixed placeholder
as the degenerate fallback), and every output character is a Python word
character or a hyphen.  The original claim's assertion that every output
character lies in `[A-Za-z0-9_-]` fails, because Python's Unicode `\w`
also keeps non-ASCII word characters; this amended form records the exact
character set. -/
theorem C4_slugify_total (l : List Char) :
    (slugify l).length ≤ 120 ∧ slugify l ≠ [] ∧
      (∀ c ∈ slugify l, isPyWord c = true ∨ c = '-') ∧
      (slugFiltered l = [] → slugify l = s2l "untitled") := by
  refine ⟨slugify_len l, slugify_ne_nil l, slugify_chars l, ?_⟩
  intro h
  unfold slugify
  rw [h]
  rfl

/-- C4 counterexample: on the one-character Chinese input the code keeps the
character (Python `\w` is Unicode-aware), so the output contains a character
outside `[A-Za-z0-9_-]`, refuting the claim as stated. -/
theorem C4_cex :
    slugify [Char.ofNat 0x4E2D] = [Char.ofNat 0x4E2D] ∧
      isAsciiSlugChar (Char.ofNat 0x4E2D) = false := by
  constructor
  · rfl
  · decide

theorem collapsedRun_le (k : Nat) : collapsedRun k ≤ 2 := by
  unfold collapsedRun
  split <;> omega

theorem collapsedRun_small {k : Nat} (h : k ≤ 2) : collapsedRun k = k := by
  unfold collapsedRun
  split <;> omega

/-- Feeding a newline run into the scanner just raises its run counter. -/
theorem nlAux_rep (b : Nat) :
    ∀ (a : Nat) (r : List Char),
      nlAux a (List.replicate b '\n' ++ r) = nlAux (a + b) r := by
  induction b with
  | zero =>
    intro a r
    simp
  | succ n ih =>
    intro a r
    rw [List.replicate_succ, List.cons_append]
    rw [show nlAux a ('\n' :: (List.replicate n '\n' ++ r)) =
        nlAux (a + 1) (List.replicate n '\n' ++ r) from by simp [nlAux]]
    rw [ih (a + 1) r]
    congr 1
    omega

theorem nlAux_idem (l : List Char) :
    ∀ k : Nat, nlAux 0 (nlAux k l) = nlAux k l := by
  induction l with
  | nil =>
    intro k
    rw [show nlAux k [] = emitNl k [] from rfl]
    rw [emitNl, nlAux_rep]
    rw [show nlAux (0 + collapsedRun k) [] = emitNl (0 + collapsedRun k) [] from rfl]
    rw [emitNl]
    congr 2
    rw [Nat.zero_add]
    exact collapsedRun_small (collapsedRun_le k)
  | cons c cs ih =>
    intro k
    by_cases hc : c = '\n'
    · subst hc
      rw [show nlAux k ('\n' :: cs) = nlAux (k + 1) cs from by simp [nlAux]]
      exact ih (k + 1)
    · rw [show nlAux k (c :: cs) = emitNl k (c :: nlAux 0 cs) from by simp [nlAux, hc]]
      rw [emitNl, nlAux_rep]
      rw [show nlAux (0 + collapsedRun k) (c :: nlAux 0 cs) =
          emitNl (0 + collapsedRun k) (c :: nlAux 0 (nlAux 0 cs)) from by
            simp [nlAux, hc]]
      rw [ih 0]
      rw [emitNl]
      congr 2
      rw [Nat.zero_add]
      exact collapsedRun_small (collapsedRun_le k)

/-- C8: the blank-line collapse (runs of 3+ newlines replaced by exactly two)
is idempotent: applying it a second time changes nothing. -/
theorem C8_collapse_idem (l : List Char) :
    collapseBlankLines (collapseBlankLines l) = collapseBlankLines l :=
  nlAux_idem l 0

theorem firstSome_none {α β : Type} (f : α → Option β) :
    ∀ l : List α, (∀ a ∈ l, f a = none) → firstSome f l = none := by
  intro l
  induction l with
  | nil => intro _; rfl
  | cons a as ih =>
    intro h
    unfold firstSome
    rw [h a (List.mem_cons_self a as)]
    exact ih (fun x hx => h x (List.mem_cons_of_mem a hx))

theorem firstSome_isSome {α β : Type} (f : α → Option β) :
    ∀ (l : List α) (a : α) (b : β), a ∈ l → f a = some b →
      ∃ c, firstSome f l = some c := by
  intro l
  induction l with
  | nil =>
    intro a b ha _
    exact absurd ha (List.not_mem_nil a)
  | cons x xs ih =>
    intro a b ha hb
    unfold firstSome
    cases hx : f x with
    | some c => exact ⟨c, rfl⟩
    | none =>
      rcases List.mem_cons.mp ha with h | h
      · subst h
        rw [hx] at hb
        exact absurd hb (by simp)
      · exact ih a b h hb

theorem firstSome_eq_first {α β : Type} [DecidableEq α] (f : α → Option β) :
    ∀ (l : List α) (a : α) (b : β), a ∈ l → f a = some b →
      (∀ x ∈ l.takeWhile (fun y => y != a), f x = none) →
      firstSome f l = some b := by
  intro l
  induction l with
  | nil =>
    intro a b ha _ _
    exact absurd ha (List.not_mem_nil a)
  | cons x xs ih =>
    intro a b ha hb hn
    by_cases hxa : x = a
    · subst hxa
      unfold firstSome
      rw [hb]
    · have hxtake : x ∈ (x :: xs).takeWhile (fun y => y != a) := by
        rw [List.takeWhile_cons_of_pos (by simp [hxa])]
        exact List.mem_cons_self _ _
      have hfx : f x = none := hn x hxtake
      unfold firstSome
      rw [hfx]
      have ha' : a ∈ xs := by
        rcases List.mem_cons.mp ha with h | h
        · exact absurd h.symm hxa
        · exact h
      refine ih a b ha' hb ?_
      intro y hy
      refine hn y ?_
      rw [List.takeWhile_cons_of_pos (by simp [hxa])]
      exact List.mem_cons_of_mem _ hy

theorem headSel_none (d : Dom) (hval : ∀ e ∈ d, validHeading e = false)
    (s : Sel) (hs : s ∈ headingSelectors) : headSel d s = none := by
  unfold headSel
  cases hq : qsel d s with
  | none => rfl
  | some el =>
    have hm : el ∈ d := List.mem_of_find?_eq_some hq
    have hp : selMatches s el = true := List.find?_some hq
    have hv := hval el hm
    have hor : (selMatches (Sel.tagIs (s2l "h1")) el ||
        selMatches (Sel.attrHas (s2l "data-page-title")) el ||
        selMatches (Sel.classHas (s2l "title")) el) = true := by
      rcases (by simpa [headingSelectors] using hs : s = Sel.tagIs (s2l "h1") ∨
          s = Sel.attrHas (s2l "data-page-title") ∨
          s = Sel.classHas (s2l "title")) with h | h | h <;>
        subst h <;> simp [hp]
    have hnc : ¬ (0 < (pyStrip el.innerText).length ∧
        (pyStrip el.innerText).length < 200) := by
      intro hcond
      rw [validHeading, hor] at hv
      simp at hv
      omega
    show (if 0 < (pyStrip el.innerText).length ∧ (pyStrip el.innerText).length < 200
      then some (pyStrip el.innerText) else none) = none
    rw [if_neg hnc]

/-- C1 (amended): when no element of the page is accepted by the heading
script (h1, page-title attribute, class containing title), the persisted
title falls back to the raw document title and to nothing further: it is the
document title verbatim, hence empty whenever that is empty.  Only the
filename component `slugify(title)` falls back to the non-empty placeholder.
The original claim's final fallback to a fixed non-empty placeholder for the
persisted title does not exist in the code. -/
theorem C1_title_fallback (docTitle : List Char) (d : Dom)
    (h : ∀ e ∈ d, validHeading e = false) :
    resolveTitle docTitle d = docTitle ∧
      slugify (resolveTitle docTitle d) ≠ [] := by
  have he : headingEval d = [] := by
    unfold headingEval
    rw [firstSome_none (headSel d) headingSelectors
      (fun s hs => headSel_none d h s hs)]
    rfl
  constructor
  · unfold resolveTitle
    rw [he]
    rfl
  · exact slugify_ne_nil _

/-- C1 witness: the amended theorem applied to a concrete heading-free page
with a non-empty document title. -/
theorem C1_witness :
    resolveTitle (s2l "Doc") c1page = s2l "Doc" ∧
      slugify (resolveTitle (s2l "Doc") c1page) ≠ [] :=
  C1_title_fallback (s2l "Doc") c1page (by decide)

/-- C1 counterexample: with an empty document title and no accepted heading,
the title written into the output file is empty - not the fixed non-empty
placeholder the claim asserts (`untitled` appears only in the filename). -/
theorem C1_cex :
    resolveTitle (s2l "") c1page = [] ∧
      fileContent (resolveTitle (s2l "") c1page) (s2l "body") =
        s2l "# \n\nbody" := by
  constructor
  · rfl
  · rfl

/-- C3 (amended): if `document.querySelector` finds a main element (or
article, or role=main) - i.e. the FIRST such element in document order -
with more than 50 characters of trimmed text, the locator answers within
the known-selector phase and the fallback walk never runs; moreover the
returned fragment is that element's inner HTML provided no earlier selector
of the fixed priority list produced a match passing the 50-character test.
The original claim (any page merely containing such an element never reaches
the fallback, and always gets that element's HTML) fails: querySelector
inspects only the first match per selector, and earlier selectors take
priority. -/
theorem C3_known_phase (d : Dom) (s : Sel) (e : ElemRec)
    (hs : s = Sel.tagIs (s2l "article") ∨ s = Sel.tagIs (s2l "main") ∨
      s = Sel.attrIs (s2l "role") (s2l "main"))
    (hq : qsel d s = some e)
    (ht : 50 < (pyStrip e.innerText).length) :
    (∃ h, locate_content d = LocateResult.known h) ∧
      ((∀ s' ∈ knownSelectors.takeWhile (fun y => y != s), checkSel d s' = none) →
        locate_content d = LocateResult.known e.innerHTML) := by
  have hcs : checkSel d s = some e.innerHTML := by
    unfold checkSel
    rw [hq]
    show (if 50 < (pyStrip e.innerText).length then some e.innerHTML else none) =
      some e.innerHTML
    rw [if_pos ht]
  have hmem : s ∈ knownSelectors := by
    rcases hs with h | h | h <;> subst h <;> decide
  constructor
  · obtain ⟨c, hc⟩ := firstSome_isSome (checkSel d) knownSelectors s e.innerHTML
      hmem hcs
    refine ⟨c, ?_⟩
    unfold locate_content phase1
    rw [hc]
  · intro hnone
    have := firstSome_eq_first (checkSel d) knownSelectors s e.innerHTML
      hmem hcs hnone
    unfold locate_content phase1
    rw [this]

/-- C3 witness: the amended theorem applied to a page whose first main
element carries more than 50 characters of text. -/
theorem C3_witness :
    (∃ h, locate_content c3goodPage = LocateResult.known h) ∧
      ((∀ s' ∈ knownSelectors.takeWhile (fun y => y != Sel.tagIs (s2l "main")),
          checkSel c3goodPage s' = none) →
        locate_content c3goodPage = LocateResult.known c3mainElem.innerHTML) :=
  C3_known_phase c3goodPage (Sel.tagIs (s2l "main")) c3mainElem
    (Or.inr (Or.inl rfl)) (by decide) (by decide)

/-- C3 counterexample: a page containing a main element with more than 50
characters of trimmed text on which the locator nevertheless runs the
fallback DOM walk - `document.querySelector` returns the first main element,
whose text fails the threshold. -/
theorem C3_cex :
    c3badPage.any (fun e => selMatches (Sel.tagIs (s2l "main")) e &&
        decide (50 < (pyStrip e.innerText).length)) = true ∧
      locate_content c3badPage = LocateResult.fallback := by
  constructor
  · decide
  · decide

/-- Fewer polls than needed for three consecutive stable observations can
never trigger the early return. -/
theorem pollLoop_short :
    ∀ (polls : List Nat) (prev sc : Nat), polls.length + sc < 3 →
      pollLoop polls prev sc = false := by
  intro polls
  induction polls with
  | nil => intro _ _ _; rfl
  | cons cur rest ih =>
    intro prev sc h
    unfold pollLoop
    split
    · rw [if_neg (by simp at h ⊢; omega)]
      exact ih cur (sc + 1) (by simp at h ⊢; omega)
    · exact ih cur 0 (by simp at h ⊢; omega)

/-- C2 (amended): once the network-idle wait has completed, the text-length
poll loop never fails the caller - for every sequence of poll observations
it returns normally, and when the deadline leaves room for fewer than three
polls it returns with stabilization unobserved.  The original claim also
covered a network-idle timeout, but that case raises: the
`wait_for_load_state` call is unguarded and its timeout error propagates. -/
theorem C2_poll_never_raises (polls : List Nat) :
    (∃ b, wait_for_content (Except.ok ()) polls = Except.ok b) ∧
      (polls.length < 3 →
        wait_for_content (Except.ok ()) polls = Except.ok false) := by
  constructor
  · exact ⟨pollLoop polls 0 0, rfl⟩
  · intro h
    unfold wait_for_content
    rw [pollLoop_short polls 0 0 (by omega)]

/-- C2 counterexample: when the network-idle wait times out, the error
propagates - `wait_for_content` does not return normally, refuting the
claim for that case. -/
theorem C2_cex :
    ¬ ∃ b, wait_for_content (Except.error (s2l "TimeoutError")) [] =
      Except.ok b := by
  intro h
  rcases h with ⟨b, hb⟩
  exact absurd hb (by simp [wait_for_content])

/-- C9: on a DOM with three nested collapsed toggles each revealing the
next, tree expansion performs exactly three activating passes and
terminates on the fourth pass with zero activations, well within the
15-pass budget. -/
theorem C9_three_passes :
    expand_sidebar_tree nestedToggles 0 = [1, 1, 1, 0] ∧
      (expand_sidebar_tree nestedToggles 0).length = 4 ∧
      ((expand_sidebar_tree nestedToggles 0).filter (fun c => c ≠ 0)).length = 3 ∧
      (expand_sidebar_tree nestedToggles 0).length ≤ 15 := by
  refine ⟨?_, ?_, ?_, ?_⟩ <;> decide

/-- C7 (amended): the records the driver excludes are exactly those whose
URL contains the start page's path segment identifier as a substring, and
the remaining records are followed in order.  The original claim's first
half - that only the start page's own URL is excluded - fails: the
substring test can also drop links to other pages whose URLs happen to
contain the identifier. -/
theorem C7_exclusion (startUrl : List Char) (links : List LinkRecord) :
    (∀ l, l ∈ excludeStart startUrl links ↔
      (l ∈ links ∧ containsStr l.url (startId startUrl) = false)) ∧
      (excludeStart startUrl links).Sublist links := by
  constructor
  · intro l
    simp [excludeStart, List.mem_filter]
  · exact List.filter_sublist _

/-- C7 counterexample: a discovered record whose normalized URL differs
from the start page's own URL is nevertheless excluded, because the
substring test matches the start identifier inside the longer URL. -/
theorem C7_cex :
    c7link.url ≠ c7start ∧ excludeStart c7start [c7link] = [] := by
  constructor
  · decide
  · decide

theorem digitChar_inj :
    ∀ a, a < 10 → ∀ b, b < 10 → Nat.digitChar a = Nat.digitChar b → a = b := by
  decide

theorem digitChar_ne_hyphen : ∀ a, a < 10 → Nat.digitChar a ≠ '-' := by
  decide

theorem digitChar_ne_zero : ∀ a, a < 10 → a ≠ 0 → Nat.digitChar a ≠ '0' := by
  decide

theorem map_digitChar_inj :
    ∀ (l1 l2 : List Nat), (∀ x ∈ l1, x < 10) → (∀ x ∈ l2, x < 10) →
      l1.map Nat.digitChar = l2.map Nat.digitChar → l1 = l2 := by
  intro l1
  induction l1 with
  | nil =>
    intro l2 _ _ h
    cases l2 with
    | nil => rfl
    | cons b bs => simp at h
  | cons a as ih =>
    intro l2 h1 h2 h
    cases l2 with
    | nil => simp at h
    | cons b bs =>
      simp at h
      obtain ⟨hab, ht⟩ := h
      have hb : a = b := digitChar_inj a (h1 a (List.mem_cons_self a as)) b
        (h2 b (List.mem_cons_self b bs)) hab
      subst hb
      rw [ih bs (fun x hx => h1 x (List.mem_cons_of_mem a hx))
        (fun x hx => h2 x (List.mem_cons_of_mem a hx)) ht]

/-- Structure of `decRepr` for a non-zero number: leading digit first, and
the leading digit is non-zero. -/
theorem decRepr_head (m : Nat) (hm : m ≠ 0) :
    ∃ (d : Nat) (t : List Nat), Nat.digits 10 m = t ++ [d] ∧ d ≠ 0 ∧ d < 10 ∧
      decRepr m = Nat.digitChar d :: (t.map Nat.digitChar).reverse := by
  have hne : Nat.digits 10 m ≠ [] := Nat.digits_ne_nil_iff_ne_zero.mpr hm
  refine ⟨(Nat.digits 10 m).getLast hne, (Nat.digits 10 m).dropLast,
    (List.dropLast_append_getLast hne).symm, Nat.getLast_digit_ne_zero 10 hm,
    Nat.digits_lt_base (by norm_num) (List.getLast_mem hne), ?_⟩
  unfold decRepr
  rw [if_neg hm]
  conv_lhs => rw [← List.dropLast_append_getLast hne]
  rw [List.map_append, List.reverse_append]
  simp

theorem decRepr_inj : ∀ n m : Nat, decRepr n = decRepr m → n = m := by
  intro n m h
  by_cases hn : n = 0 <;> by_cases hm : m = 0
  · omega
  · exfalso
    obtain ⟨d, t, _, hd0, hd10, hrep⟩ := decRepr_head m hm
    rw [hrep] at h
    have h0 : decRepr n = ['0'] := by rw [decRepr, if_pos hn]
    rw [h0] at h
    have : '0' = Nat.digitChar d := (List.cons.injEq _ _ _ _).mp h.symm |>.1.symm
    exact digitChar_ne_zero d hd10 hd0 this.symm
  · exfalso
    obtain ⟨d, t, _, hd0, hd10, hrep⟩ := decRepr_head n hn
    rw [hrep] at h
    have h0 : decRepr m = ['0'] := by rw [decRepr, if_pos hm]
    rw [h0] at h
    have : Nat.digitChar d = '0' := (List.cons.injEq _ _ _ _).mp h |>.1
    exact digitChar_ne_zero d hd10 hd0 this
  · rw [decRepr, if_neg hn, decRepr, if_neg hm] at h
    have hmap := List.reverse_injective h
    have hdig := map_digitChar_inj (Nat.digits 10 n) (Nat.digits 10 m)
      (fun x hx => Nat.digits_lt_base (by norm_num) hx)
      (fun x hx => Nat.digits_lt_base (by norm_num) hx) hmap
    exact Nat.digits.injective 10 hdig

theorem pad2_inj : ∀ n m : Nat, pad2 n = pad2 m → n = m := by
  intro n m h
  unfold pad2 at h
  by_cases hn : n < 10 <;> by_cases hm : m < 10
  · rw [if_pos hn, if_pos hm] at h
    exact decRepr_inj n m ((List.cons.injEq _ _ _ _).mp h).2
  · exfalso
    rw [if_pos hn, if_neg hm] at h
    obtain ⟨d, t, _, hd0, hd10, hrep⟩ := decRepr_head m (by omega)
    rw [hrep] at h
    have : '0' = Nat.digitChar d := ((List.cons.injEq _ _ _ _).mp h).1
    exact digitChar_ne_zero d hd10 hd0 this.symm
  · exfalso
    rw [if_neg hn, if_pos hm] at h
    obtain ⟨d, t, _, hd0, hd10, hrep⟩ := decRepr_head n (by omega)
    rw [hrep] at h
    have : Nat.digitChar d = '0' := ((List.cons.injEq _ _ _ _).mp h).1
    exact digitChar_ne_zero d hd10 hd0 this
  · rw [if_neg hn, if_neg hm] at h
    exact decRepr_inj n m h

theorem decRepr_no_hyphen (n : Nat) : ∀ c ∈ decRepr n, c ≠ '-' := by
  intro c hc
  unfold decRepr at hc
  by_cases hn : n = 0
  · rw [if_pos hn] at hc
    simp at hc
    subst hc
    decide
  · rw [if_neg hn] at hc
    rw [List.mem_reverse] at hc
    obtain ⟨d, hd, hdc⟩ := List.mem_map.mp hc
    subst hdc
    exact digitChar_ne_hyphen d (Nat.digits_lt_base (by norm_num) hd)

theorem pad2_no_hyphen (n : Nat) : ∀ c ∈ pad2 n, c ≠ '-' := by
  intro c hc
  unfold pad2 at hc
  by_cases hn : n < 10
  · rw [if_pos hn] at hc
    rcases List.mem_cons.mp hc with h | h
    · subst h
      decide
    · exact decRepr_no_hyphen n c h
  · rw [if_neg hn] at hc
    exact decRepr_no_hyphen n c hc

/-- Two hyphen-free lists followed by a hyphen-marked tail split uniquely. -/
theorem append_hyphen_inj :
    ∀ (p q r t : List Char), (∀ c ∈ p, c ≠ '-') → (∀ c ∈ q, c ≠ '-') →
      p ++ '-' :: r = q ++ '-' :: t → p = q ∧ r = t := by
  intro p
  induction p with
  | nil =>
    intro q r t _ hq h
    cases q with
    | nil => simpa using h
    | cons b bs =>
      exfalso
      simp at h
      exact hq b (List.mem_cons_self b bs) h.1.symm
  | cons a as ih =>
    intro q r t hp hq h
    cases q with
    | nil =>
      exfalso
      simp at h
      exact hp a (List.mem_cons_self a as) h.1
    | cons b bs =>
      simp at h
      obtain ⟨hab, ht⟩ := h
      subst hab
      obtain ⟨h1, h2⟩ := ih bs r t (fun c hc => hp c (List.mem_cons_of_mem a hc))
        (fun c hc => hq c (List.mem_cons_of_mem a hc)) ht
      exact ⟨by rw [h1], h2⟩

/-- C10: within one crawl run the generated filenames are injective in the
page index: for distinct indices the filenames differ whatever the page
titles are, so no successfully written page file overwrites another's.
The index prefix is digit-only and the hyphen after it pins the split. -/
theorem C10_filename_inj (i j : Nat) (t1 t2 : List Char) (hij : i ≠ j) :
    filename i (slugify t1) ≠ filename j (slugify t2) := by
  intro h
  unfold filename at h
  obtain ⟨hp, _⟩ := append_hyphen_inj (pad2 i) (pad2 j) _ _
    (pad2_no_hyphen i) (pad2_no_hyphen j) h
  exact hij (pad2_inj i j hp)

/-- C10 witness: the theorem applied at the concrete indices 1 and 2 with
equal titles. -/
theorem C10_witness :
    filename 1 (slugify (s2l "Intro")) ≠ filename 2 (slugify (s2l "Intro")) :=
  C10_filename_inj 1 2 (s2l "Intro") (s2l "Intro") (by decide)

theorem visitStep_file_mem (outcome : Nat → LinkRecord → Except (List Char) PageData) :
    ∀ (links : List LinkRecord) (s i : Nat) (f : List Char),
      (i, f) ∈ (visitStep outcome s links).1 →
      ∃ (l : LinkRecord) (pd : PageData), s ≤ i ∧ links[i - s]? = some l ∧
        outcome i l = Except.ok pd ∧ f = filename i (slugify pd.title) := by
  intro links
  induction links with
  | nil =>
    intro s i f h
    simp [visitStep] at h
  | cons l ls ih =>
    intro s i f h
    unfold visitStep at h
    cases ho : outcome s l with
    | ok pd =>
      rw [ho] at h
      rcases List.mem_cons.mp h with h1 | h1
      · rw [Prod.mk.injEq] at h1
        obtain ⟨hi, hf⟩ := h1
        subst hi
        exact ⟨l, pd, le_refl _, by simp, ho, hf⟩
      · obtain ⟨l', pd', hs, hg, ho', hf⟩ := ih (s + 1) i f h1
        refine ⟨l', pd', by omega, ?_, ho', hf⟩
        rw [show i - s = (i - (s + 1)) + 1 from by omega]
        simpa using hg
    | error e =>
      rw [ho] at h
      obtain ⟨l', pd', hs, hg, ho', hf⟩ := ih (s + 1) i f h
      refine ⟨l', pd', by omega, ?_, ho', hf⟩
      rw [show i - s = (i - (s + 1)) + 1 from by omega]
      simpa using hg

theorem visitStep_ok_mem (outcome : Nat → LinkRecord → Except (List Char) PageData) :
    ∀ (links : List LinkRecord) (s j : Nat) (l : LinkRecord) (pd : PageData),
      s ≤ j → links[j - s]? = some l → outcome j l = Except.ok pd →
      (j, filename j (slugify pd.title)) ∈ (visitStep outcome s links).1 := by
  intro links
  induction links with
  | nil =>
    intro s j l pd _ hg _
    simp at hg
  | cons x xs ih =>
    intro s j l pd hs hg hok
    by_cases hjs : j = s
    · subst hjs
      rw [show j - j = 0 from by omega] at hg
      simp at hg
      subst hg
      unfold visitStep
      rw [hok]
      exact List.mem_cons_self _ _
    · have hshift : j - s = (j - (s + 1)) + 1 := by omega
      rw [hshift] at hg
      simp at hg
      have hmem := ih (s + 1) j l pd (by omega) hg hok
      unfold visitStep
      cases ho : outcome s x with
      | ok pd' => exact List.mem_cons_of_mem _ hmem
      | error e => exact hmem

theorem visitStep_err_mem (outcome : Nat → LinkRecord → Except (List Char) PageData) :
    ∀ (links : List LinkRecord) (s j : Nat) (l : LinkRecord) (e : List Char),
      s ≤ j → links[j - s]? = some l → outcome j l = Except.error e →
      (j, e) ∈ (visitStep outcome s links).2 := by
  intro links
  induction links with
  | nil =>
    intro s j l e _ hg _
    simp at hg
  | cons x xs ih =>
    intro s j l e hs hg herr
    by_cases hjs : j = s
    · subst hjs
      rw [show j - j = 0 from by omega] at hg
      simp at hg
      subst hg
      unfold visitStep
      rw [herr]
      exact List.mem_cons_self _ _
    · have hshift : j - s = (j - (s + 1)) + 1 := by omega
      rw [hshift] at hg
      simp at hg
      have hmem := ih (s + 1) j l e (by omega) hg herr
      unfold visitStep
      cases ho : outcome s x with
      | ok pd' => exact hmem
      | error e' => exact List.mem_cons_of_mem _ hmem

theorem visitStep_total (outcome : Nat → LinkRecord → Except (List Char) PageData) :
    ∀ (links : List LinkRecord) (s : Nat),
      (visitStep outcome s links).1.length + (visitStep outcome s links).2.length =
        links.length := by
  intro links
  induction links with
  | nil => intro s; rfl
  | cons x xs ih =>
    intro s
    unfold visitStep
    cases outcome s x with
    | ok pd =>
      have := ih (s + 1)
      simp only [List.length_cons]
      omega
    | error e =>
      have := ih (s + 1)
      simp only [List.length_cons]
      omega

/-- C6: if visiting link `i` fails (the navigation or extraction raises),
then no output file is produced for index `i`, the error is recorded with
that index, every subsequent link is still attempted (its success writes
its file, its failure is recorded), and the crawl reaches Done having
attempted every link exactly once. -/
theorem C6_failure_isolated
    (outcome : Nat → LinkRecord → Except (List Char) PageData)
    (links : List LinkRecord) (i : Nat) (l : LinkRecord) (e : List Char)
    (hi : 1 ≤ i) (hl : links[i - 1]? = some l)
    (he : outcome i l = Except.error e) :
    (∀ f, (i, f) ∉ (visitAll outcome links).1) ∧
      (i, e) ∈ (visitAll outcome links).2 ∧
      (∀ (j : Nat) (l' : LinkRecord), i < j → links[j - 1]? = some l' →
        (∀ pd, outcome j l' = Except.ok pd →
          (j, filename j (slugify pd.title)) ∈ (visitAll outcome links).1) ∧
        (∀ e', outcome j l' = Except.error e' →
          (j, e') ∈ (visitAll outcome links).2)) ∧
      (visitAll outcome links).1.length + (visitAll outcome links).2.length =
        links.length := by
  refine ⟨?_, ?_, ?_, ?_⟩
  · intro f hf
    obtain ⟨l', pd, _, hg, ho, _⟩ := visitStep_file_mem outcome links 1 i f hf
    rw [hl] at hg
    have : l' = l := by simpa using hg.symm
    subst this
    rw [he] at ho
    exact absurd ho (by simp)
  · exact visitStep_err_mem outcome links 1 i l e hi hl he
  · intro j l' hij hg
    constructor
    · intro pd hok
      exact visitStep_ok_mem outcome links 1 j l' pd (by omega) hg hok
    · intro e' herr
      exact visitStep_err_mem outcome links 1 j l' e' (by omega) hg herr
  · exact visitStep_total outcome links 1

/-- C6 witness: the theorem applied to a two-link run whose first visit
raises a navigation timeout. -/
theorem C6_witness :
    (∀ f, (1, f) ∉ (visitAll c6outcome c6links).1) ∧
      (1, s2l "TimeoutError: nav") ∈ (visitAll c6outcome c6links).2 ∧
      (∀ (j : Nat) (l' : LinkRecord), 1 < j → c6links[j - 1]? = some l' →
        (∀ pd, c6outcome j l' = Except.ok pd →
          (j, filename j (slugify pd.title)) ∈ (visitAll c6outcome c6links).1) ∧
        (∀ e', c6outcome j l' = Except.error e' →
          (j, e') ∈ (visitAll c6outcome c6links).2)) ∧
      (visitAll c6outcome c6links).1.length +
        (visitAll c6outcome c6links).2.length = c6links.length :=
  C6_failure_isolated c6outcome c6links 1
    ⟨s2l "https://h.example/wiki/a", s2l "A"⟩ (s2l "TimeoutError: nav")
    (by decide) (by rfl) (by rfl)

/-- A serialized href either is already the clean URL (no query, no
fragment) or contains a delimiter character. -/
theorem hrefStr_cases (u : UrlRec) :
    hrefStr u = cleanUrl u ∨ '?' ∈ hrefStr u ∨ '#' ∈ hrefStr u := by
  unfold hrefStr
  by_cases hq : u.query = []
  · by_cases hf : u.frag = []
    · left
      rw [if_pos hq, if_pos hf]
      simp
    · right
      right
      rw [if_pos hq, if_neg hf]
      simp
  · right
    left
    rw [if_neg hq]
    simp

/-- The discovery script agrees with the spec-worded filter-map-dedup
description: the script's extra check of the RAW href string against the
seen set is redundant, because the seen set only ever holds clean
(delimiter-free) URLs, which a raw href can equal only when it is itself
already clean. -/
theorem discoverAux_eq_spec (baseHost : List Char) :
    ∀ (anchors : List Anchor) (seen : List (List Char)),
      (∀ a ∈ anchors, WfUrl a.url) →
      (∀ s ∈ seen, '?' ∉ s ∧ '#' ∉ s) →
      discoverAux baseHost anchors seen =
        dedupKeepFirst
          ((anchors.filter (anchorPass baseHost)).map
            (fun a => ⟨cleanUrl a.url, pyStrip a.text⟩)) seen := by
  intro anchors
  induction anchors with
  | nil =>
    intro seen _ _
    rfl
  | cons a as ih =>
    intro seen hwf hseen
    have hwfa : WfUrl a.url := hwf a (List.mem_cons_self a as)
    have hwf' : ∀ x ∈ as, WfUrl x.url :=
      fun x hx => hwf x (List.mem_cons_of_mem a hx)
    by_cases hM : containsStr (hrefStr a.url) wikiMarker = true
    · by_cases hRm : hrefStr a.url ∈ seen
      · have hfree := hseen _ hRm
        have hclean : hrefStr a.url = cleanUrl a.url := by
          rcases hrefStr_cases a.url with h | h | h
          · exact h
          · exact absurd h hfree.1
          · exact absurd h hfree.2
        have hCm : cleanUrl a.url ∈ seen := hclean ▸ hRm
        have hL : discoverAux baseHost (a :: as) seen =
            discoverAux baseHost as seen := by
          rw [discoverAux]
          simp [hRm]
        rw [hL]
        by_cases hP : passMeta baseHost a = true
        · rw [List.filter_cons_of_pos (by simp [anchorPass, hM, hP]),
            List.map_cons]
          have hD : dedupKeepFirst
              ((⟨cleanUrl a.url, pyStrip a.text⟩ : LinkRecord) ::
                (as.filter (anchorPass baseHost)).map
                  (fun a => ⟨cleanUrl a.url, pyStrip a.text⟩)) seen =
              dedupKeepFirst
                ((as.filter (anchorPass baseHost)).map
                  (fun a => ⟨cleanUrl a.url, pyStrip a.text⟩)) seen := by
            rw [dedupKeepFirst]
            simp [hCm]
          rw [hD]
          exact ih seen hwf' hseen
        · rw [List.filter_cons_of_neg (by simp [anchorPass, hP])]
          exact ih seen hwf' hseen
      · by_cases hP : passMeta baseHost a = true
        · by_cases hCm : cleanUrl a.url ∈ seen
          · have hL : discoverAux baseHost (a :: as) seen =
                discoverAux baseHost as seen := by
              rw [discoverAux]
              simp [hM, hRm, hP, hCm]
            rw [hL]
            rw [List.filter_cons_of_pos (by simp [anchorPass, hM, hP]),
              List.map_cons]
            have hD : dedupKeepFirst
                ((⟨cleanUrl a.url, pyStrip a.text⟩ : LinkRecord) ::
                  (as.filter (anchorPass baseHost)).map
                    (fun a => ⟨cleanUrl a.url, pyStrip a.text⟩)) seen =
                dedupKeepFirst
                  ((as.filter (anchorPass baseHost)).map
                    (fun a => ⟨cleanUrl a.url, pyStrip a.text⟩)) seen := by
              rw [dedupKeepFirst]
              simp [hCm]
            rw [hD]
            exact ih seen hwf' hseen
          · have hL : discoverAux baseHost (a :: as) seen =
                (⟨cleanUrl a.url, pyStrip a.text⟩ : LinkRecord) ::
                  discoverAux baseHost as (cleanUrl a.url :: seen) := by
              rw [discoverAux]
              simp [hM, hRm, hP, hCm]
            rw [hL]
            rw [List.filter_cons_of_pos (by simp [anchorPass, hM, hP]),
              List.map_cons]
            have hD : dedupKeepFirst
                ((⟨cleanUrl a.url, pyStrip a.text⟩ : LinkRecord) ::
                  (as.filter (anchorPass baseHost)).map
                    (fun a => ⟨cleanUrl a.url, pyStrip a.text⟩)) seen =
                (⟨cleanUrl a.url, pyStrip a.text⟩ : LinkRecord) ::
                  dedupKeepFirst
                    ((as.filter (anchorPass baseHost)).map
                      (fun a => ⟨cleanUrl a.url, pyStrip a.text⟩))
                    (cleanUrl a.url :: seen) := by
              rw [dedupKeepFirst]
              simp [hCm]
            rw [hD]
            congr 1
            refine ih (cleanUrl a.url :: seen) hwf' ?_
            intro s hs
            rcases List.mem_cons.mp hs with h | h
            · subst h
              exact hwfa
            · exact hseen s h
        · have hL : discoverAux baseHost (a :: as) seen =
              discoverAux baseHost as seen := by
            rw [discoverAux]
            simp [hM, hRm, hP]
          rw [hL, List.filter_cons_of_neg (by simp [anchorPass, hP])]
          exact ih seen hwf' hseen
    · have hL : discoverAux baseHost (a :: as) seen =
          discoverAux baseHost as seen := by
        rw [discoverAux]
        simp [hM]
      rw [hL, List.filter_cons_of_neg (by simp [anchorPass, hM])]
      exact ih seen hwf' hseen

/-- The spec-worded deduplication yields pairwise-distinct URLs, none of
them in the initial seen set. -/
theorem dedupKeepFirst_nodup :
    ∀ (rs : List LinkRecord) (seen : List (List Char)),
      ((dedupKeepFirst rs seen).map LinkRecord.url).Nodup ∧
        ∀ u ∈ (dedupKeepFirst rs seen).map LinkRecord.url, u ∉ seen := by
  intro rs
  induction rs with
  | nil =>
    intro seen
    exact ⟨List.nodup_nil, by simp [dedupKeepFirst]⟩
  | cons r rest ih =>
    intro seen
    by_cases hcm : r.url ∈ seen
    · have hD : dedupKeepFirst (r :: rest) seen = dedupKeepFirst rest seen := by
        rw [dedupKeepFirst]
        simp [hcm]
      rw [hD]
      exact ih seen
    · have hD : dedupKeepFirst (r :: rest) seen =
          r :: dedupKeepFirst rest (r.url :: seen) := by
        rw [dedupKeepFirst]
        simp [hcm]
      rw [hD]
      obtain ⟨hnd, hni⟩ := ih (r.url :: seen)
      rw [List.map_cons]
      constructor
      · refine List.nodup_cons.mpr ⟨?_, hnd⟩
        intro hmem
        exact hni r.url hmem (List.mem_cons_self _ _)
      · intro u hu
        rcases List.mem_cons.mp hu with h | h
        · subst h
          exact hcm
        · intro hmem
          exact hni u h (List.mem_cons_of_mem _ hmem)

/-- C5: URL normalization (keep origin and path, drop query string and
fragment) is idempotent and leaves the serialized clean URL unchanged;
and - for anchors whose parsed URLs are well-formed (their origin + path
contains no `?` or `#`, true of everything a URL parser yields) - the
discovery script equals the spec-worded description: filter to same-host
wiki links with valid text, normalize, deduplicate by normalized URL
keeping the first-seen title in DOM encounter order; hence two same-host
wiki links differing only in query or fragment produce exactly one
LinkRecord, and the produced URLs are pairwise distinct. -/
theorem C5_normalize_dedup (baseHost : List Char) (anchors : List Anchor)
    (hwf : ∀ a ∈ anchors, WfUrl a.url) :
    (∀ u : UrlRec, normalize (normalize u) = normalize u) ∧
      (∀ u : UrlRec, cleanUrl (normalize u) = cleanUrl u) ∧
      discover_wiki_links baseHost anchors = specDiscover baseHost anchors ∧
      ((discover_wiki_links baseHost anchors).map LinkRecord.url).Nodup := by
  have heq : discover_wiki_links baseHost anchors = specDiscover baseHost anchors := by
    unfold discover_wiki_links specDiscover
    exact discoverAux_eq_spec baseHost anchors [] hwf (by simp)
  refine ⟨fun u => rfl, fun u => rfl, heq, ?_⟩
  rw [heq]
  exact (dedupKeepFirst_nodup _ []).1

/-- C5 witness: the theorem applied to the two-anchor page; the
well-formedness hypothesis is discharged by evaluation. -/
theorem C5_witness :
    (∀ u : UrlRec, normalize (normalize u) = normalize u) ∧
      (∀ u : UrlRec, cleanUrl (normalize u) = cleanUrl u) ∧
      discover_wiki_links c5host c5anchors = specDiscover c5host c5anchors ∧
      ((discover_wiki_links c5host c5anchors).map LinkRecord.url).Nodup :=
  C5_normalize_dedup c5host c5anchors (by decide)

end Feishu
